import Mathlib

/-
Shallow embedding of the core of the sift log viewer (src/main.go) and
verification of the specification claims about it.

The external collaborators are modelled as follows:
* a compiled gojq query is modelled as a function from the input JSON value
  to the (lazily produced) stream of results; the stream is a Lean list and
  the iterator's Next call is List.head?; an in-stream gojq error value is
  RunResult.err;
* encoding/json decoding of a raw line is a parameter
  jsonParse : String -> Option GoValue (best-effort parsing; none models a
  decode failure, which the loaders record as an invalid line);
* the rendering-side numeric and JSON formatters used only for display
  (fmt %g and json.Marshal) are parameters of the display functions.
-/

namespace Sift

/-- Universe of dynamic Go values (decoded JSON values and gojq results) as
they flow through the filter and view-transform pipeline.  vOther stands for
any value kind not matched by a case of the Go type switches (for example a
big integer produced by gojq); finite float64 payloads are represented as
rationals. -/
inductive GoValue where
  | vNull
  | vBool (b : Bool)
  | vInt (n : Int)
  | vFloat (x : Rat)
  | vStr (s : String)
  | vArr (xs : List GoValue)
  | vObj (fields : List (String × GoValue))
  | vOther (tag : String)

/-- Embeds isTruthy of src/main.go: nil, false, zero numbers, empty string,
empty array and empty object are falsy, every other value (the default case
of the type switch included) is truthy. -/
def isTruthy : GoValue → Bool
  | GoValue.vNull => false
  | GoValue.vBool b => b
  | GoValue.vInt n => n != 0
  | GoValue.vFloat x => x != 0
  | GoValue.vStr s => s != ""
  | GoValue.vArr xs => 0 < xs.length
  | GoValue.vObj fields => 0 < fields.length
  | GoValue.vOther _ => true

/-- One element of a gojq result stream: either a value or an error value
(gojq yields errors in-stream; the Go code checks result.(error)). -/
inductive RunResult where
  | val (v : GoValue)
  | err

/-- Embeds the Filter struct of src/main.go.  The compiled gojq query is
modelled as the function from the input value to its result stream. -/
structure Filter where
  expression : String
  query : GoValue → List RunResult
  enabled : Bool

/-- Embeds the LogLine struct of src/main.go.  jsonData is the decoded JSON
value (vNull when the line is invalid and the Go map is nil). -/
structure LogLine where
  lineNumber : Int
  rawLine : String
  jsonData : GoValue
  isValid : Bool

/-- Embeds the per-filter part of the loop body of linePassesAllFilters:
run the query, take the first result via the iterator; no result or an
error result fails the filter, otherwise the result's truthiness decides. -/
def filterPasses (f : Filter) (data : GoValue) : Bool :=
  match (f.query data).head? with
  | none => false
  | some RunResult.err => false
  | some (RunResult.val v) => isTruthy v

/-- Embeds linePassesAllFilters of src/main.go: invalid JSON never passes;
disabled filters are skipped; every enabled filter must pass. -/
def linePassesAllFilters (filters : List Filter) (line : LogLine) : Bool :=
  if !line.isValid then false
  else filters.all (fun f => if !f.enabled then true else filterPasses f line.jsonData)

/-- Embeds the Model struct of src/main.go, restricted to the fields the
core state transitions read or write.  Defaults give the zero-ish initial
values so concrete test states can set only the relevant fields. -/
structure Model where
  lines : List LogLine := []
  filteredLines : List LogLine := []
  filters : List Filter := []
  cursor : Int := 0
  viewport : Int := 0
  height : Int := 24
  width : Int := 80
  showPretty : Bool := false
  prettyViewport : Int := 0
  fileSize : Int := 0
  lastLineNum : Int := 0
  filterMode : Bool := false
  filterManageMode : Bool := false
  filterEditMode : Bool := false
  viewMode : Bool := false
  viewFilter : Option (GoValue → List RunResult) := none
  lineScrollOffset : Int := 0
  isFileFullyLoaded : Bool := false
  loadingMoreLines : Bool := false
  showSpinner : Bool := false
  spinnerFrame : Int := 0
  tailMode : Bool := false
  needsInitialTailJump : Bool := false
  showHelp : Bool := false
  helpViewport : Int := 0

/-- Embeds getVisibleLines of src/main.go: with no filters the whole store
is returned, otherwise the cached filtered lines. -/
def getVisibleLines (m : Model) : List LogLine :=
  if m.filters.length = 0 then m.lines else m.filteredLines

/-- Embeds applyFilters of src/main.go: recomputes the filteredLines cache
from scratch. -/
def applyFilters (m : Model) : Model :=
  if m.filters.length = 0 then { m with filteredLines := m.lines }
  else { m with filteredLines := m.lines.filter (fun line => linePassesAllFilters m.filters line) }

/-- Embeds the scan loop of restorePositionAfterFilter: i is the index of
the head of the remaining list, best the bestPosition accumulator; an exact
match returns its index, a greater line number stops the scan, otherwise
best becomes the current index. -/
def findBestGo : List LogLine → Int → Int → Int → Int
  | [], _, _, best => best
  | l :: rest, target, i, best =>
    if l.lineNumber = target then i
    else if target < l.lineNumber then best
    else findBestGo rest target (i + 1) i

/-- The bestPosition computed by restorePositionAfterFilter over the whole
visible sequence (initial index and accumulator are 0). -/
def findBestPosition (visible : List LogLine) (target : Int) : Int :=
  findBestGo visible target 0 0

/-- Embeds restorePositionAfterFilter of src/main.go: selects the scan
result as cursor, adjusts the viewport around it and resets the horizontal
scroll; an empty visible sequence resets everything to 0. -/
def restorePositionAfterFilter (m : Model) (targetLineNumber : Int) : Model :=
  let visibleLines := getVisibleLines m
  if visibleLines.length = 0 then
    { m with cursor := 0, viewport := 0, lineScrollOffset := 0 }
  else
    let m1 := { m with cursor := findBestPosition visibleLines targetLineNumber }
    let m2 :=
      if m1.cursor < m1.viewport then { m1 with viewport := m1.cursor }
      else if m1.cursor ≥ m1.viewport + m1.height - 1 then
        let vp := m1.cursor - m1.height + 2
        { m1 with viewport := if vp < 0 then 0 else vp }
      else m1
    { m2 with lineScrollOffset := 0 }

/-- Embeds applyViewTransform of src/main.go.  marshal models json.Marshal
(none is a marshalling failure) and fmtFloat, fmtAny model the fmt package
verbs %g and %v; they are display-only external collaborators. -/
def applyViewTransform (marshal : GoValue → Option String) (fmtFloat : Rat → String)
    (fmtAny : GoValue → String) (m : Model) (jsonData : GoValue) : String :=
  match m.viewFilter with
  | none => ""
  | some q =>
    match (q jsonData).head? with
    | none => ""
    | some RunResult.err => ""
    | some (RunResult.val v) =>
      match v with
      | GoValue.vStr s => s
      | GoValue.vNull => "null"
      | GoValue.vBool b => if b then "true" else "false"
      | GoValue.vInt n => toString n
      | GoValue.vFloat x => fmtFloat x
      | other =>
        match marshal other with
        | some s => s
        | none => fmtAny other

/-- Embeds the per-line display-text selection of View (src/main.go lines
1032-1040): start from the raw line; when a view filter is active and the
line is valid, a non-empty transform result replaces it. -/
def displayTextForLine (marshal : GoValue → Option String) (fmtFloat : Rat → String)
    (fmtAny : GoValue → String) (m : Model) (line : LogLine) : String :=
  let displayLine := line.rawLine
  if m.viewFilter.isSome && line.isValid then
    let transformedData := applyViewTransform marshal fmtFloat fmtAny m line.jsonData
    if transformedData != "" then transformedData else displayLine
  else displayLine

/-- The jump-to-bottom block shared by the t key handler and the
newLinesMsg handler of Update: cursor to the last visible index, viewport
so the cursor sits at the bottom (clamped at 0), horizontal scroll reset;
no-op when nothing is visible. -/
def jumpToBottomClamped (m : Model) : Model :=
  let visibleLines := getVisibleLines m
  if 0 < visibleLines.length then
    let cursor := (visibleLines.length : Int) - 1
    let viewport :=
      if cursor ≥ m.height - 1 then
        let vp := cursor - m.height + 2
        if vp < 0 then 0 else vp
      else 0
    { m with cursor := cursor, viewport := viewport, lineScrollOffset := 0 }
  else m

/-- The jump-to-bottom block of the end key and operationCompleteMsg
handlers of Update (same as the clamped variant but without the clamp of
the viewport at 0). -/
def jumpToBottom (m : Model) : Model :=
  let visibleLines := getVisibleLines m
  if 0 < visibleLines.length then
    let cursor := (visibleLines.length : Int) - 1
    let viewport := if cursor ≥ m.height - 1 then cursor - m.height + 2 else 0
    { m with cursor := cursor, viewport := viewport, lineScrollOffset := 0 }
  else m

/-- Number of entries of the helpLines literal of renderHelpView and
calculateHelpMaxScroll. -/
def helpLinesCount : Int := 39

/-- Embeds calculateHelpMaxScroll of src/main.go. -/
def calculateHelpMaxScroll (m : Model) : Int :=
  if !m.showHelp then 0
  else
    let availableLines := if m.height - 1 < 1 then 1 else m.height - 1
    let maxScroll := helpLinesCount - availableLines
    if maxScroll < 0 then 0 else maxScroll

/-- The input keys whose normal-mode handling the claims are about. -/
inductive Key where
  | down
  | pgdn
  | keyEnd
  | keyT

/-- The tea commands the modelled Update branches can emit (tea.Batch is a
list).  checkNewLines carries the arguments the tick handler passes from
the model. -/
inductive Cmd where
  | loadMore (chunkSize : Int)
  | loadToEnd
  | spinnerTick
  | tick
  | checkNewLines (currentSize : Int) (lastLineNum : Int)
deriving DecidableEq

/-- Embeds the normal-mode key dispatch of Update (src/main.go, the switch
reached when no input mode is active) for down/j, pgdn, end and t.
prettyMaxScroll stands for calculatePrettyMaxScroll, which depends on the
excluded JSON pretty-printing and wrapping collaborators.  Mirrors the
early returns of the Go code: a triggered lazy load returns before the
horizontal scroll reset. -/
def updateKeyNormal (prettyMaxScroll : Model → Int) (m : Model) (k : Key) : Model × List Cmd :=
  match k with
  | Key.down =>
    if m.showHelp then
      ({ m with helpViewport :=
          if m.helpViewport < calculateHelpMaxScroll m then m.helpViewport + 1
          else m.helpViewport }, [])
    else if m.showPretty then
      ({ m with prettyViewport :=
          if m.prettyViewport < prettyMaxScroll m then m.prettyViewport + 1
          else m.prettyViewport }, [])
    else
      let visibleLines := getVisibleLines m
      if m.cursor < (visibleLines.length : Int) - 1 then
        let cursor := m.cursor + 1
        let viewport :=
          if cursor ≥ m.viewport + m.height - 1 then cursor - m.height + 2 else m.viewport
        let m1 := { m with cursor := cursor, viewport := viewport }
        if !m1.isFileFullyLoaded && !m1.loadingMoreLines &&
            (m1.lines.length : Int) - m1.cursor ≤ 100 then
          ({ m1 with loadingMoreLines := true }, [Cmd.loadMore 500])
        else ({ m1 with lineScrollOffset := 0 }, [])
      else ({ m with lineScrollOffset := 0 }, [])
  | Key.pgdn =>
    if m.showHelp then
      let pageSize := if m.height - 1 < 1 then 1 else m.height - 1
      let hv := m.helpViewport + pageSize
      ({ m with helpViewport :=
          if hv > calculateHelpMaxScroll m then calculateHelpMaxScroll m else hv }, [])
    else if m.showPretty then
      let pageSize := if m.height - 1 < 1 then 1 else m.height - 1
      let pv := m.prettyViewport + pageSize
      ({ m with prettyViewport :=
          if pv > prettyMaxScroll m then prettyMaxScroll m else pv }, [])
    else
      let visibleLines := getVisibleLines m
      if 0 < visibleLines.length then
        let pageSize := if m.height - 1 < 1 then 1 else m.height - 1
        let c1 := m.cursor + pageSize
        let cursor := if c1 ≥ (visibleLines.length : Int) then (visibleLines.length : Int) - 1 else c1
        let viewport :=
          if cursor ≥ m.viewport + m.height - 1 then cursor - m.height + 2 else m.viewport
        let m1 := { m with cursor := cursor, viewport := viewport }
        if !m1.isFileFullyLoaded && !m1.loadingMoreLines &&
            (m1.lines.length : Int) - m1.cursor ≤ 100 then
          ({ m1 with loadingMoreLines := true }, [Cmd.loadMore 500])
        else ({ m1 with lineScrollOffset := 0 }, [])
      else ({ m with lineScrollOffset := 0 }, [])
  | Key.keyEnd =>
    if !m.showPretty then
      if !m.isFileFullyLoaded then
        ({ m with showSpinner := true, spinnerFrame := 0 }, [Cmd.spinnerTick, Cmd.loadToEnd])
      else (jumpToBottom m, [])
    else (m, [])
  | Key.keyT =>
    if !m.showPretty && !m.filterMode && !m.filterManageMode && !m.viewMode then
      let m1 := { m with tailMode := !m.tailMode }
      if m1.tailMode then
        if !m1.isFileFullyLoaded then
          ({ m1 with showSpinner := true, spinnerFrame := 0 }, [Cmd.spinnerTick, Cmd.loadToEnd])
        else (jumpToBottomClamped m1, [])
      else (m1, [])
    else (m, [])

/-- Embeds the tickMsg case of Update: the model is unchanged and the
checkForNewLines command (with the model's observed size and last line
number) plus the next tick are scheduled. -/
def updateTick (m : Model) : Model × List Cmd :=
  (m, [Cmd.checkNewLines m.fileSize m.lastLineNum, Cmd.tick])

/-- Embeds the newLinesMsg case of Update: append the batch, update
lastLineNum, re-apply filters when any exist, and in tail mode jump cursor
and viewport to the bottom of the (possibly unchanged) visible sequence;
statSize is the os.Stat result used to refresh the observed file size. -/
def updateNewLines (m : Model) (newLines : List LogLine) (statSize : Option Int) : Model :=
  if 0 < newLines.length then
    let m1 := { m with lines := m.lines ++ newLines,
                       lastLineNum := ((newLines.getLast?).map LogLine.lineNumber).getD m.lastLineNum }
    let m2 := if 0 < m1.filters.length then applyFilters m1 else m1
    let m3 := if m2.tailMode then jumpToBottomClamped m2 else m2
    { m3 with fileSize := statSize.getD m3.fileSize }
  else m

/-- Embeds the loadMoreLinesMsg case of Update: the loading flag is
cleared; an error silently marks the file fully loaded, success re-applies
filters when any exist. -/
def updateLoadMoreDone (m : Model) (hasErr : Bool) : Model :=
  let m1 := { m with loadingMoreLines := false }
  if hasErr then { m1 with isFileFullyLoaded := true }
  else if 0 < m1.filters.length then applyFilters m1 else m1

/-- What the checkForNewLines command finds in the file system: the current
size and the complete raw lines found after seeking to the previously
observed size. -/
structure FileSnapshot where
  size : Int
  newRaw : List String

/-- Constructs a LogLine from a raw line the way every loader in
src/main.go does: best-effort JSON decode, validity recorded per line. -/
def mkLogLine (jsonParse : String → Option GoValue) (n : Int) (raw : String) : LogLine :=
  match jsonParse raw with
  | some v => { lineNumber := n, rawLine := raw, jsonData := v, isValid := true }
  | none => { lineNumber := n, rawLine := raw, jsonData := GoValue.vNull, isValid := false }

/-- Reads a list of raw lines into LogLines with consecutive line numbers
starting at startNum (the shared numbering loop of all loaders). -/
def numberLines (jsonParse : String → Option GoValue) (startNum : Int) :
    List String → List LogLine
  | [] => []
  | raw :: rest => mkLogLine jsonParse startNum raw :: numberLines jsonParse (startNum + 1) rest

/-- Embeds the body of the checkForNewLines command of src/main.go: a failed
open or stat produces no message (file = none); no growth produces no
message; otherwise the new complete lines are numbered from lastLineNum + 1
and delivered as the newLinesMsg payload. -/
def checkForNewLinesRun (jsonParse : String → Option GoValue) (file : Option FileSnapshot)
    (currentSize : Int) (lastLineNum : Int) : Option (List LogLine) :=
  match file with
  | none => none
  | some f =>
    if f.size ≤ currentSize then none
    else
      let newLines := numberLines jsonParse (lastLineNum + 1) f.newRaw
      if 0 < newLines.length then some newLines else none

/-- Loader-facing projection of the model for the line numbering claims:
the store, the lastLineNum bookkeeping, the fully-loaded flag and the
not-yet-read remainder of the file held by the retained handle. -/
structure LoaderState where
  lines : List LogLine
  lastLineNum : Int
  isFileFullyLoaded : Bool
  rest : List String

/-- lastLineNum update used by the loaders: the last stored line's number,
or the previous value when the store is empty. -/
def lastNumberOf (ls : List LogLine) (d : Int) : Int :=
  ((ls.getLast?).map LogLine.lineNumber).getD d

/-- Embeds loadInitialChunk plus the corresponding main() setup: read up to
chunkSize lines numbered from 1, set lastLineNum from the last line and the
fully-loaded flag iff fewer than chunkSize lines were read. -/
def initLoader (jsonParse : String → Option GoValue) (file : List String)
    (chunkSize : Nat) : LoaderState :=
  let ls := numberLines jsonParse 1 (file.take chunkSize)
  { lines := ls
    lastLineNum := lastNumberOf ls 0
    isFileFullyLoaded := decide (ls.length < chunkSize)
    rest := file.drop chunkSize }

/-- Embeds loadMoreLines of src/main.go: no-op when already fully loaded
(the handle is nil exactly then in this model); otherwise append up to
chunkSize further lines numbered from len(lines) + 1, mark fully loaded
when fewer were available, and refresh lastLineNum from the last line. -/
def loadMoreStep (jsonParse : String → Option GoValue) (chunkSize : Nat)
    (s : LoaderState) : LoaderState :=
  if s.isFileFullyLoaded then s
  else
    let got := s.rest.take chunkSize
    let newLines := numberLines jsonParse ((s.lines.length : Int) + 1) got
    let lines := s.lines ++ newLines
    { lines := lines
      lastLineNum := lastNumberOf lines s.lastLineNum
      isFileFullyLoaded := if got.length < chunkSize then true else s.isFileFullyLoaded
      rest := s.rest.drop chunkSize }

/-- Embeds a tail append: the checkForNewLines numbering (from
lastLineNum + 1 over the newly found raw lines) followed by the newLinesMsg
bookkeeping of Update; no complete new line means no message and no state
change. -/
def tailAppendStep (jsonParse : String → Option GoValue) (raws : List String)
    (s : LoaderState) : LoaderState :=
  if raws.length = 0 then s
  else
    let newLines := numberLines jsonParse (s.lastLineNum + 1) raws
    { s with lines := s.lines ++ newLines
             lastLineNum := lastNumberOf (s.lines ++ newLines) s.lastLineNum }

/-- A store-growing event after the initial chunk: a lazy loadMore request
or a batch of tailed lines. -/
inductive LoadOp where
  | more (chunkSize : Nat)
  | tail (raws : List String)

/-- Applies one store-growing event. -/
def loadStep (jsonParse : String → Option GoValue) (s : LoaderState) : LoadOp → LoaderState
  | LoadOp.more c => loadMoreStep jsonParse c s
  | LoadOp.tail rs => tailAppendStep jsonParse rs s

/-- Runs a sequence of store-growing events. -/
def runLoadOps (jsonParse : String → Option GoValue) (s : LoaderState)
    (ops : List LoadOp) : LoaderState :=
  ops.foldl (loadStep jsonParse) s

/-- The store's line numbers are exactly 1..len(store), in order. -/
def hasCanonicalNumbering (ls : List LogLine) : Prop :=
  ls.map LogLine.lineNumber = (List.range ls.length).map (fun (i : Nat) => (i : Int) + 1)

/-- Distinguishes the values that fall into the default branch of the
display coercion type switch (objects, arrays and unrecognized kinds). -/
def isComposite : GoValue → Bool
  | GoValue.vArr _ => true
  | GoValue.vObj _ => true
  | GoValue.vOther _ => true
  | _ => false

/-- An invalid line: raw text that is not JSON. -/
def exLineInvalid : LogLine :=
  { lineNumber := 1, rawLine := "garbage", jsonData := GoValue.vNull, isValid := false }

/-- A valid line whose JSON value is true (passes a truthiness filter). -/
def exLineTrue (n : Int) : LogLine :=
  { lineNumber := n, rawLine := "true", jsonData := GoValue.vBool true, isValid := true }

/-- A valid line whose JSON value is false (rejected by a truthiness
filter). -/
def exLineFalse (n : Int) : LogLine :=
  { lineNumber := n, rawLine := "false", jsonData := GoValue.vBool false, isValid := true }

/-- The identity query: one result, the input value itself. -/
def exIdentityFilter : Filter :=
  { expression := ".", query := fun v => [RunResult.val v], enabled := true }

/-- A query whose result stream is empty. -/
def exEmptyFilter : Filter :=
  { expression := "empty", query := fun _ => [], enabled := true }

/-- A query whose first result is an error value. -/
def exErrFilter : Filter :=
  { expression := "error", query := fun _ => [RunResult.err], enabled := true }

/-- A model with all-default fields. -/
def exModelBase : Model := {}

/-- A model in the middle of a lazy load: the loading flag is set and the
file is not fully loaded. -/
def exModelLoading : Model :=
  { isFileFullyLoaded := false, loadingMoreLines := true }

/-- Tail mode, one enabled truthiness filter, two visible lines, cursor at
the top. -/
def exModelC2 : Model :=
  { lines := [exLineTrue 1, exLineTrue 2]
    filteredLines := [exLineTrue 1, exLineTrue 2]
    filters := [exIdentityFilter]
    cursor := 0
    tailMode := true
    height := 10 }

/-- Unfiltered store with line numbers 1, 3, 7 (as left visible by some
earlier filtering in the program run). -/
def exModelC5 : Model :=
  { lines := [exLineTrue 1, exLineTrue 3, exLineTrue 7]
    filteredLines := [exLineTrue 1, exLineTrue 3, exLineTrue 7] }

/-- A valid line with raw text distinct from every transform output used in
the display examples. -/
def exLineRaw : LogLine :=
  { lineNumber := 1, rawLine := "raw", jsonData := GoValue.vObj [], isValid := true }

/-- A view transform whose only result is the empty string. -/
def exModelViewEmptyStr : Model :=
  { viewFilter := some (fun _ => [RunResult.val (GoValue.vStr "")]) }

/-- A view transform whose only result is the string hello. -/
def exModelViewHello : Model :=
  { viewFilter := some (fun _ => [RunResult.val (GoValue.vStr "hello")]) }

/-- A store holding only the invalid line, with no filters. -/
def exModelInvalidOnly : Model :=
  { lines := [exLineInvalid], filteredLines := [exLineInvalid] }

/-- A store with one passing and one failing valid line under the enabled
truthiness filter. -/
def exModelMixed : Model :=
  { lines := [exLineTrue 1, exLineFalse 2]
    filteredLines := []
    filters := [exIdentityFilter] }

/-- Characterisation of a passing filter evaluation: the first result of
the stream exists, is not an error, and is truthy. -/
theorem filterPasses_iff (f : Filter) (d : GoValue) :
    filterPasses f d = true ↔
      ∃ v, (f.query d).head? = some (RunResult.val v) ∧ isTruthy v = true := by
  unfold filterPasses
  cases h : (f.query d).head? with
  | none => simp
  | some r =>
    cases r with
    | err => simp
    | val v => simp

/-- Characterisation of linePassesAllFilters: the line is valid and every
enabled filter passes on its JSON value. -/
theorem linePassesAllFilters_iff (filters : List Filter) (line : LogLine) :
    linePassesAllFilters filters line = true ↔
      line.isValid = true ∧
        ∀ f ∈ filters, f.enabled = true → filterPasses f line.jsonData = true := by
  cases hv : line.isValid with
  | false => simp [linePassesAllFilters, hv]
  | true =>
    simp only [linePassesAllFilters, hv, Bool.not_true, Bool.false_eq_true, if_false,
      List.all_eq_true, true_and]
    constructor
    · intro h f hf hen
      have hx := h f hf
      simpa [hen] using hx
    · intro h f hf
      cases hen : f.enabled with
      | false => simp [hen]
      | true => simpa [hen] using h f hf hen

/-- C6: the truthiness function returns false exactly on null, false,
numeric zero, the empty string, the empty array and the empty object, and
true on every other value, unrecognized kinds included. -/
theorem C6_isTruthy_false_iff (v : GoValue) :
    isTruthy v = false ↔
      (v = GoValue.vNull ∨ v = GoValue.vBool false ∨ v = GoValue.vInt 0 ∨
       v = GoValue.vFloat 0 ∨ v = GoValue.vStr "" ∨ v = GoValue.vArr [] ∨
       v = GoValue.vObj []) := by
  cases v <;>
    simp [isTruthy, bne_eq_false_iff_eq, List.length_eq_zero, Nat.pos_iff_ne_zero]

/-- C7: an enabled filter whose evaluation yields no result, or whose first
result is an error value, fails for that line, and the line is excluded
(linePassesAllFilters is false) rather than any error being surfaced. -/
theorem C7_eval_failure_excludes (filters : List Filter) (line : LogLine) (f : Filter)
    (hmem : f ∈ filters) (hen : f.enabled = true) (hv : line.isValid = true)
    (hfail : (f.query line.jsonData).head? = none ∨
             (f.query line.jsonData).head? = some RunResult.err) :
    linePassesAllFilters filters line = false := by
  cases hb : linePassesAllFilters filters line with
  | false => rfl
  | true =>
    exfalso
    have h1 := (linePassesAllFilters_iff filters line).mp hb
    have h2 := (filterPasses_iff f line.jsonData).mp (h1.2 f hmem hen)
    obtain ⟨v, hv1, _⟩ := h2
    rcases hfail with hf | hf <;> rw [hf] at hv1 <;> simp at hv1

/-- Witness for C7 at a concrete line and the empty-stream filter. -/
theorem C7_witness :
    linePassesAllFilters [exEmptyFilter] (exLineTrue 1) = false := by
  exact C7_eval_failure_excludes [exEmptyFilter] (exLineTrue 1) exEmptyFilter
    (by simp) rfl rfl (Or.inl rfl)

/-- C10: only the first value of each enabled filter's result stream
matters: two filter lists that pointwise agree on enabledness and on the
first evaluation result decide every line identically, and for a single
enabled filter whose first result is a value, that value's truthiness alone
decides the line. -/
theorem C10_first_result_only (line : LogLine) :
    (∀ fs gs : List Filter,
      List.Forall₂ (fun f g => f.enabled = g.enabled ∧
        (f.query line.jsonData).head? = (g.query line.jsonData).head?) fs gs →
      linePassesAllFilters fs line = linePassesAllFilters gs line) ∧
    (∀ (f : Filter) (v : GoValue), line.isValid = true → f.enabled = true →
      (f.query line.jsonData).head? = some (RunResult.val v) →
      linePassesAllFilters [f] line = isTruthy v) := by
  constructor
  · intro fs gs hfa
    cases hv : line.isValid with
    | false => simp [linePassesAllFilters, hv]
    | true =>
      simp only [linePassesAllFilters, hv, Bool.not_true, Bool.false_eq_true, if_false]
      induction hfa with
      | nil => rfl
      | cons hfg htail ih =>
        rename_i f g fs1 gs1
        have hq : filterPasses f line.jsonData = filterPasses g line.jsonData := by
          unfold filterPasses
          rw [hfg.2]
        simp only [List.all_cons, ih, hfg.1, hq]
  · intro f v hv hen hhead
    simp [linePassesAllFilters, hv, hen, filterPasses, hhead]

/-- Witness for C10: a stream whose later results differ (an extra error
value after the first result) decides the line exactly as the one-result
stream does, and both pass. -/
theorem C10_witness :
    linePassesAllFilters
        [{ expression := ".", query := fun v => [RunResult.val v, RunResult.err],
           enabled := true }] (exLineTrue 1) =
      linePassesAllFilters [exIdentityFilter] (exLineTrue 1) ∧
    linePassesAllFilters [exIdentityFilter] (exLineTrue 1) = true := by
  constructor
  · exact (C10_first_result_only (exLineTrue 1)).1 _ _
      (List.Forall₂.cons ⟨rfl, rfl⟩ List.Forall₂.nil)
  · rfl

/-- C1 fails as stated: with an empty filter list the whole (unfiltered)
store is visible, so an invalid line is in the visible sequence even though
it is not valid JSON and the right-hand side of the claimed equivalence is
false. -/
theorem C1_counterexample :
    exLineInvalid ∈ getVisibleLines (applyFilters exModelInvalidOnly) ∧
      ¬(exLineInvalid.isValid = true ∧
        ∀ f ∈ exModelInvalidOnly.filters, f.enabled = true →
          ∃ v, (f.query exLineInvalid.jsonData).head? = some (RunResult.val v) ∧
            isTruthy v = true) := by
  constructor
  · simp [getVisibleLines, applyFilters, exModelInvalidOnly]
  · intro h
    have hx : exLineInvalid.isValid = true := h.1
    simp [exLineInvalid] at hx

/-- C1 amended: when the filter list is non-empty, a line is in the visible
sequence (after recomputation) iff it is in the store, is valid JSON and
every enabled filter's first evaluation result on its JSON value is a
non-error truthy value; when the filter list is empty, the visible sequence
is the entire store, invalid lines included. -/
theorem C1_amended_visible (m : Model) (L : LogLine) :
    (m.filters ≠ [] →
      (L ∈ getVisibleLines (applyFilters m) ↔
        L ∈ m.lines ∧ L.isValid = true ∧
          ∀ f ∈ m.filters, f.enabled = true →
            ∃ v, (f.query L.jsonData).head? = some (RunResult.val v) ∧
              isTruthy v = true)) ∧
    (m.filters = [] → getVisibleLines (applyFilters m) = m.lines) := by
  constructor
  · intro hne
    have hlen : ¬m.filters.length = 0 := by
      simpa [List.length_eq_zero] using hne
    simp only [applyFilters, getVisibleLines, if_neg hlen, List.mem_filter]
    rw [linePassesAllFilters_iff]
    constructor
    · rintro ⟨hmem, hval, hall⟩
      exact ⟨hmem, hval, fun f hf hen => (filterPasses_iff f L.jsonData).mp (hall f hf hen)⟩
    · rintro ⟨hmem, hval, hall⟩
      exact ⟨hmem, hval, fun f hf hen => (filterPasses_iff f L.jsonData).mpr (hall f hf hen)⟩
  · intro he
    simp [applyFilters, getVisibleLines, he]

/-- Witness for the amended C1 at a concrete non-empty filter list: with
the truthiness filter enabled, the false-valued line is stored but not
visible, the true-valued line is visible. -/
theorem C1_amended_witness :
    (exLineTrue 1 ∈ getVisibleLines (applyFilters exModelMixed)) ∧
    ¬(exLineFalse 2 ∈ getVisibleLines (applyFilters exModelMixed)) := by
  constructor
  · exact ((C1_amended_visible exModelMixed (exLineTrue 1)).1
      (by simp [exModelMixed])).mpr
      (by
        refine ⟨by simp [exModelMixed], rfl, ?_⟩
        intro f hf hen
        simp only [exModelMixed, List.mem_singleton] at hf
        subst hf
        exact ⟨GoValue.vBool true, rfl, rfl⟩)
  · intro hmem
    have h := ((C1_amended_visible exModelMixed (exLineFalse 2)).1
      (by simp [exModelMixed])).mp hmem
    have h2 := h.2.2 exIdentityFilter (by simp [exModelMixed]) rfl
    obtain ⟨v, hv1, hv2⟩ := h2
    have hveq : v = GoValue.vBool false := by
      simpa [exIdentityFilter, exLineFalse] using hv1.symm
    subst hveq
    simp [isTruthy] at hv2

/-- The scan skips an element whose line number is below the target,
remembering its index as best. -/
theorem findBestGo_skip (l : LogLine) (rest : List LogLine) (target i best : Int)
    (h : l.lineNumber < target) :
    findBestGo (l :: rest) target i best = findBestGo rest target (i + 1) i := by
  simp only [findBestGo]
  rw [if_neg (by omega), if_neg (by omega)]

/-- The scan stops at once and returns the accumulator when every remaining
element is beyond the target. -/
theorem findBestGo_stop (rest : List LogLine) (target i best : Int)
    (h : ∀ x ∈ rest, target < x.lineNumber) :
    findBestGo rest target i best = best := by
  cases rest with
  | nil => rfl
  | cons y ys =>
    have hy := h y (by simp)
    simp only [findBestGo]
    rw [if_neg (by omega), if_pos hy]

/-- Passing over a non-empty prefix of elements strictly below the target
advances the index by its length and leaves the last passed index as
best. -/
theorem findBestGo_pass (pre : List LogLine) (rest : List LogLine) (target i best : Int)
    (hne : pre ≠ []) (hall : ∀ x ∈ pre, x.lineNumber < target) :
    findBestGo (pre ++ rest) target i best =
      findBestGo rest target (i + (pre.length : Int)) (i + (pre.length : Int) - 1) := by
  induction pre generalizing i best with
  | nil => exact absurd rfl hne
  | cons a as ih =>
    have ha := hall a (List.mem_cons_self a as)
    rw [List.cons_append, findBestGo_skip a _ _ _ _ ha]
    cases as with
    | nil =>
      simp only [List.nil_append, List.length_cons, List.length_nil, Nat.zero_add,
        Nat.cast_one]
      have h1 : i + 1 - 1 = i := by ring
      rw [h1]
    | cons b bs =>
      have h2 : ∀ x ∈ b :: bs, x.lineNumber < target :=
        fun x hx => hall x (List.mem_cons_of_mem a hx)
      rw [ih (i + 1) i (by simp) h2]
      have e1 : i + 1 + ((b :: bs).length : Int) = i + ((a :: b :: bs).length : Int) := by
        simp only [List.length_cons]
        push_cast
        ring
      rw [e1]

/-- An element at or below the target followed only by elements beyond it
makes the scan return that element's index: an exact match returns it
directly, otherwise the next element (or the end) stops the scan with best
equal to this index. -/
theorem findBestGo_pivot (l : LogLine) (rest : List LogLine) (target i best : Int)
    (hle : l.lineNumber ≤ target) (hrest : ∀ x ∈ rest, target < x.lineNumber) :
    findBestGo (l :: rest) target i best = i := by
  by_cases he : l.lineNumber = target
  · simp only [findBestGo]
    rw [if_pos he]
  · have hlt : l.lineNumber < target := lt_of_le_of_ne hle he
    rw [findBestGo_skip _ _ _ _ _ hlt, findBestGo_stop _ _ _ _ hrest]

/-- The cursor produced by restorePositionAfterFilter is the scan result
(or 0 on an empty visible sequence); the later viewport adjustment never
changes it. -/
theorem restorePosition_cursor (m : Model) (t : Int) :
    (restorePositionAfterFilter m t).cursor =
      if (getVisibleLines m).length = 0 then 0
      else findBestPosition (getVisibleLines m) t := by
  unfold restorePositionAfterFilter
  by_cases h0 : (getVisibleLines m).length = 0
  · rw [if_pos h0, if_pos h0]
  · rw [if_neg h0, if_neg h0]
    dsimp only
    split
    · rfl
    · split <;> rfl

/-- C5: re-anchoring over a visible sequence with strictly increasing line
numbers selects the entry with the previously selected line number when it
survives; otherwise the entry with the greatest line number at or below it;
and index 0 when no entry is at or below it (or the sequence is empty). -/
theorem C5_reanchoring (m : Model) (target : Int)
    (hpw : List.Pairwise (fun a b => a.lineNumber < b.lineNumber) (getVisibleLines m)) :
    ((∀ k (hk : k < (getVisibleLines m).length),
        target < ((getVisibleLines m).get ⟨k, hk⟩).lineNumber) →
      (restorePositionAfterFilter m target).cursor = 0) ∧
    (∀ j (hj : j < (getVisibleLines m).length),
      ((getVisibleLines m).get ⟨j, hj⟩).lineNumber ≤ target →
      (∀ k (hk : k < (getVisibleLines m).length), j < k →
        target < ((getVisibleLines m).get ⟨k, hk⟩).lineNumber) →
      (restorePositionAfterFilter m target).cursor = (j : Int)) ∧
    (∀ i (hi : i < (getVisibleLines m).length),
      ((getVisibleLines m).get ⟨i, hi⟩).lineNumber = target →
      (restorePositionAfterFilter m target).cursor = (i : Int)) := by
  have hget := List.pairwise_iff_get.mp hpw
  have hmain : ∀ j (hj : j < (getVisibleLines m).length),
      ((getVisibleLines m).get ⟨j, hj⟩).lineNumber ≤ target →
      (∀ k (hk : k < (getVisibleLines m).length), j < k →
        target < ((getVisibleLines m).get ⟨k, hk⟩).lineNumber) →
      (restorePositionAfterFilter m target).cursor = (j : Int) := by
    intro j hj hle hafter
    have hne : ¬(getVisibleLines m).length = 0 := by omega
    rw [restorePosition_cursor, if_neg hne]
    set visible := getVisibleLines m with hvis
    have hget2 : ∀ (k l : Nat) (hk : k < visible.length) (hl : l < visible.length),
        k < l → visible[k].lineNumber < visible[l].lineNumber := by
      intro k l hk hl hkl
      have hx := hget ⟨k, hk⟩ ⟨l, hl⟩ hkl
      simpa [List.get_eq_getElem] using hx
    have hle2 : visible[j].lineNumber ≤ target := by
      simpa [List.get_eq_getElem] using hle
    have hafter2 : ∀ k (hk : k < visible.length), j < k →
        target < visible[k].lineNumber := by
      intro k hk hjk
      have hx := hafter k hk hjk
      simpa [List.get_eq_getElem] using hx
    have hdecomp : visible = visible.take j ++ (visible[j] :: visible.drop (j + 1)) := by
      rw [← List.drop_eq_getElem_cons hj, List.take_append_drop]
    have htake : ∀ x ∈ visible.take j, x.lineNumber < target := by
      intro x hx
      obtain ⟨k, hk, hkx⟩ := List.mem_iff_getElem.mp hx
      have hklt : k < j := by
        simp only [List.length_take] at hk
        omega
      have hkv : k < visible.length := by omega
      have hxe : (visible.take j)[k] = visible[k] := by simp
      rw [← hkx, hxe]
      have h1 := hget2 k j hkv hj hklt
      omega
    have hdrop : ∀ x ∈ visible.drop (j + 1), target < x.lineNumber := by
      intro x hx
      obtain ⟨k, hk, hkx⟩ := List.mem_iff_getElem.mp hx
      have hkv : j + 1 + k < visible.length := by
        simp only [List.length_drop] at hk
        omega
      have hxe : (visible.drop (j + 1))[k] = visible[j + 1 + k] := by simp
      rw [← hkx, hxe]
      exact hafter2 (j + 1 + k) hkv (by omega)
    unfold findBestPosition
    rw [hdecomp]
    by_cases hj0 : j = 0
    · subst hj0
      simp only [List.take_zero, List.nil_append]
      rw [findBestGo_pivot _ _ _ _ _ hle2 hdrop]
      simp
    · have htne : visible.take j ≠ [] := by
        intro hx
        have hlen := congrArg List.length hx
        simp only [List.length_take, List.length_nil] at hlen
        omega
      rw [findBestGo_pass _ _ _ _ _ htne htake,
        findBestGo_pivot _ _ _ _ _ hle2 hdrop]
      have hlt : (visible.take j).length = j := by
        simp only [List.length_take]
        omega
      rw [hlt]
      ring
  refine ⟨?_, hmain, ?_⟩
  · intro hall
    by_cases h0 : (getVisibleLines m).length = 0
    · rw [restorePosition_cursor, if_pos h0]
    · rw [restorePosition_cursor, if_neg h0]
      unfold findBestPosition
      apply findBestGo_stop
      intro x hx
      obtain ⟨⟨k, hk⟩, hkx⟩ := List.mem_iff_get.mp hx
      rw [← hkx]
      exact hall k hk
  · intro i hi heq
    refine hmain i hi (le_of_eq heq) ?_
    intro k hk hik
    have := hget ⟨i, hi⟩ ⟨k, hk⟩ hik
    omega

/-- Witness for C5: visible line numbers 1, 3, 7 with previous selection on
line 5 (removed): the nearest preceding survivor, line 3 at index 1, is
selected. -/
theorem C5_witness :
    (restorePositionAfterFilter exModelC5 5).cursor = 1 ∧
    ((getVisibleLines exModelC5).get ⟨1, by decide⟩).lineNumber = 3 := by
  constructor
  · exact (C5_reanchoring exModelC5 5 (by decide)).2.1 1 (by decide) (by decide)
      (by decide)
  · rfl

/-- The line number a loader assigns is the requested one, whatever the
parse outcome. -/
theorem mkLogLine_lineNumber (p : String → Option GoValue) (n : Int) (raw : String) :
    (mkLogLine p n raw).lineNumber = n := by
  unfold mkLogLine
  cases p raw <;> rfl

/-- numberLines preserves the count of raw lines. -/
theorem numberLines_length (p : String → Option GoValue) (s : Int) (rs : List String) :
    (numberLines p s rs).length = rs.length := by
  induction rs generalizing s with
  | nil => rfl
  | cons r rest ih => simp [numberLines, ih]

/-- The numbers assigned by numberLines are consecutive from the start
value. -/
theorem numberLines_map (p : String → Option GoValue) (s : Int) (rs : List String) :
    (numberLines p s rs).map LogLine.lineNumber =
      (List.range rs.length).map (fun (i : Nat) => s + (i : Int)) := by
  induction rs generalizing s with
  | nil => rfl
  | cons r rest ih =>
    simp only [numberLines, List.map_cons, mkLogLine_lineNumber, ih (s + 1),
      List.length_cons, List.range_succ_eq_map, List.map_map, List.cons.injEq]
    refine ⟨by push_cast; ring, ?_⟩
    apply List.map_congr_left
    intro i _
    simp only [Function.comp_apply]
    push_cast
    ring

/-- Appending a freshly numbered block starting at len + 1 preserves the
canonical 1..len numbering. -/
theorem canonical_append (p : String → Option GoValue) (ls : List LogLine)
    (rs : List String) (h : hasCanonicalNumbering ls) :
    hasCanonicalNumbering (ls ++ numberLines p ((ls.length : Int) + 1) rs) := by
  unfold hasCanonicalNumbering at h ⊢
  rw [List.map_append, h, numberLines_map, List.length_append, numberLines_length,
    List.range_add, List.map_append, List.map_map]
  congr 1
  apply List.map_congr_left
  intro i _
  simp only [Function.comp_apply]
  push_cast
  ring

/-- For a canonically numbered store, the lastLineNum bookkeeping yields
the store length (or the fallback when the store is empty). -/
theorem lastNumberOf_canonical (ls : List LogLine) (d : Int)
    (h : hasCanonicalNumbering ls) :
    lastNumberOf ls d = if ls.length = 0 then d else (ls.length : Int) := by
  rcases List.eq_nil_or_concat ls with hnil | ⟨as, a, hconcat⟩
  · subst hnil
    rfl
  · rw [List.concat_eq_append] at hconcat
    subst hconcat
    unfold hasCanonicalNumbering at h
    have hlen : (as ++ [a]).length = as.length + 1 := by simp
    rw [hlen] at h
    have hlast := congrArg List.getLast? h
    rw [List.map_append, List.range_succ, List.map_append] at hlast
    simp only [List.map_cons, List.map_nil, List.getLast?_concat] at hlast
    have ha : a.lineNumber = (as.length : Int) + 1 := by
      simpa using hlast
    unfold lastNumberOf
    rw [List.getLast?_concat]
    have hres : (Option.map LogLine.lineNumber (some a)).getD d = a.lineNumber := rfl
    rw [hres, ha, if_neg (by simp), hlen]
    push_cast
    ring

/-- The loader invariant: canonical numbering plus lastLineNum equal to the
store length. -/
def LoaderInv (s : LoaderState) : Prop :=
  hasCanonicalNumbering s.lines ∧ s.lastLineNum = (s.lines.length : Int)

/-- The empty store is canonically numbered. -/
theorem canonical_nil : hasCanonicalNumbering [] := rfl

/-- The initial chunk load establishes the loader invariant. -/
theorem initLoader_inv (p : String → Option GoValue) (file : List String)
    (chunkSize : Nat) : LoaderInv (initLoader p file chunkSize) := by
  unfold LoaderInv initLoader
  dsimp only
  have hcan : hasCanonicalNumbering (numberLines p 1 (file.take chunkSize)) := by
    have h := canonical_append p [] (file.take chunkSize) canonical_nil
    simpa using h
  refine ⟨hcan, ?_⟩
  rw [lastNumberOf_canonical _ _ hcan]
  by_cases h0 : (numberLines p 1 (file.take chunkSize)).length = 0
  · rw [if_pos h0, h0]
    rfl
  · rw [if_neg h0]

/-- loadMoreLines preserves the loader invariant. -/
theorem loadMoreStep_inv (p : String → Option GoValue) (chunkSize : Nat)
    (s : LoaderState) (h : LoaderInv s) : LoaderInv (loadMoreStep p chunkSize s) := by
  unfold LoaderInv loadMoreStep
  by_cases hf : s.isFileFullyLoaded
  · rw [if_pos hf]
    exact h
  · rw [if_neg hf]
    dsimp only
    have hcan := canonical_append p s.lines (s.rest.take chunkSize) h.1
    refine ⟨hcan, ?_⟩
    rw [lastNumberOf_canonical _ _ hcan]
    by_cases h0 : (s.lines ++ numberLines p ((s.lines.length : Int) + 1)
        (s.rest.take chunkSize)).length = 0
    · rw [if_pos h0, h0]
      simp only [List.length_append] at h0
      have hl0 : s.lines.length = 0 := by omega
      rw [h.2, hl0]
    · rw [if_neg h0]

/-- A tail append preserves the loader invariant. -/
theorem tailAppendStep_inv (p : String → Option GoValue) (raws : List String)
    (s : LoaderState) (h : LoaderInv s) : LoaderInv (tailAppendStep p raws s) := by
  unfold LoaderInv tailAppendStep
  by_cases h0 : raws.length = 0
  · rw [if_pos h0]
    exact h
  · rw [if_neg h0]
    dsimp only
    have hstart : s.lastLineNum + 1 = (s.lines.length : Int) + 1 := by rw [h.2]
    have hcan : hasCanonicalNumbering
        (s.lines ++ numberLines p (s.lastLineNum + 1) raws) := by
      rw [hstart]
      exact canonical_append p s.lines raws h.1
    refine ⟨hcan, ?_⟩
    rw [lastNumberOf_canonical _ _ hcan]
    have hne : ¬(s.lines ++ numberLines p (s.lastLineNum + 1) raws).length = 0 := by
      simp only [List.length_append, numberLines_length]
      omega
    rw [if_neg hne]

/-- Every store-growing event preserves the loader invariant. -/
theorem loadStep_inv (p : String → Option GoValue) (s : LoaderState) (op : LoadOp)
    (h : LoaderInv s) : LoaderInv (loadStep p s op) := by
  cases op with
  | more c => exact loadMoreStep_inv p c s h
  | tail rs => exact tailAppendStep_inv p rs s h

/-- Any sequence of store-growing events preserves the loader invariant. -/
theorem runLoadOps_inv (p : String → Option GoValue) (s : LoaderState)
    (ops : List LoadOp) (h : LoaderInv s) : LoaderInv (runLoadOps p s ops) := by
  induction ops generalizing s with
  | nil => exact h
  | cons op rest ih => exact ih (loadStep p s op) (loadStep_inv p s op h)

/-- C9: after the initial chunk load followed by any sequence of loadMore
calls and tail appends, the store's line numbers are exactly 1..len(store),
strictly increasing with no gaps or repeats. -/
theorem C9_canonical_numbering (p : String → Option GoValue) (file : List String)
    (chunkSize : Nat) (ops : List LoadOp) :
    hasCanonicalNumbering (runLoadOps p (initLoader p file chunkSize) ops).lines :=
  (runLoadOps_inv p (initLoader p file chunkSize) ops (initLoader_inv p file chunkSize)).1

/-- applyFilters rewrites only the filteredLines cache; the navigation and
mode fields are untouched. -/
theorem applyFilters_preserves (m : Model) :
    (applyFilters m).cursor = m.cursor ∧ (applyFilters m).tailMode = m.tailMode ∧
    (applyFilters m).filters = m.filters ∧ (applyFilters m).lines = m.lines ∧
    (applyFilters m).height = m.height := by
  unfold applyFilters
  split <;> exact ⟨rfl, rfl, rfl, rfl, rfl⟩

/-- The jump to the bottom does not change which lines are visible. -/
theorem getVisibleLines_jumpToBottomClamped (m : Model) :
    getVisibleLines (jumpToBottomClamped m) = getVisibleLines m := by
  simp only [jumpToBottomClamped]
  split <;> rfl

/-- The cursor after the clamped jump: the last visible index when anything
is visible, otherwise unchanged. -/
theorem jumpToBottomClamped_cursor (m : Model) :
    (jumpToBottomClamped m).cursor =
      if 0 < (getVisibleLines m).length then ((getVisibleLines m).length : Int) - 1
      else m.cursor := by
  unfold jumpToBottomClamped
  by_cases h : 0 < (getVisibleLines m).length
  · rw [if_pos h, if_pos h]
  · rw [if_neg h, if_neg h]

/-- C2 fails as stated: in tail mode a batch whose every line is removed by
the enabled filter still moves the cursor to the bottom of the unchanged
visible sequence (here from index 0 to index 1), although the visible
sequence did not grow. -/
theorem C2_counterexample :
    (updateNewLines exModelC2 [exLineFalse 3] none).cursor = 1 ∧
    exModelC2.cursor = 0 ∧
    (getVisibleLines (updateNewLines exModelC2 [exLineFalse 3] none)).length =
      (getVisibleLines exModelC2).length := by
  refine ⟨rfl, rfl, rfl⟩

/-- C2 amended: when tail mode is active and a non-empty batch of new lines
is processed, the cursor jumps to the bottom of the recomputed visible
sequence whenever that sequence is non-empty, whether or not it grew; when
it is empty the cursor is unchanged.  If the cursor was already at the
bottom and every new line is filtered out, jumping to the (unchanged)
bottom leaves it in place, and a batch whose only surviving line is the
last visible one puts the cursor exactly on that line. -/
theorem C2_amended_tail_jump (m : Model) (ls : List LogLine) (sz : Option Int)
    (htail : m.tailMode = true) (hne : 0 < ls.length) :
    (0 < (getVisibleLines (updateNewLines m ls sz)).length →
      (updateNewLines m ls sz).cursor =
        ((getVisibleLines (updateNewLines m ls sz)).length : Int) - 1) ∧
    ((getVisibleLines (updateNewLines m ls sz)).length = 0 →
      (updateNewLines m ls sz).cursor = m.cursor) := by
  unfold updateNewLines
  rw [if_pos hne]
  dsimp only
  set m1 : Model := { m with lines := m.lines ++ ls, lastLineNum := ((ls.getLast?).map LogLine.lineNumber).getD m.lastLineNum } with hm1
  set m2 : Model := if 0 < m1.filters.length then applyFilters m1 else m1 with hm2
  have htail2 : m2.tailMode = true := by
    rw [hm2]
    split
    · rw [(applyFilters_preserves m1).2.1]
      exact htail
    · exact htail
  have hcur2 : m2.cursor = m.cursor := by
    rw [hm2]
    split
    · rw [(applyFilters_preserves m1).1]
    · rfl
  rw [htail2]
  simp only [if_true]
  have hvis : getVisibleLines { jumpToBottomClamped m2 with fileSize := sz.getD (jumpToBottomClamped m2).fileSize } = getVisibleLines m2 := by
    rw [show getVisibleLines { jumpToBottomClamped m2 with fileSize := sz.getD (jumpToBottomClamped m2).fileSize } = getVisibleLines (jumpToBottomClamped m2) from rfl]
    exact getVisibleLines_jumpToBottomClamped m2
  have hcur : ({ jumpToBottomClamped m2 with fileSize := sz.getD (jumpToBottomClamped m2).fileSize } : Model).cursor = (jumpToBottomClamped m2).cursor := rfl
  rw [hvis, hcur, jumpToBottomClamped_cursor]
  constructor
  · intro hpos
    rw [if_pos hpos]
  · intro h0
    rw [if_neg (by omega), hcur2]

/-- Witness for the amended C2, matching example C of the specification: in
tail mode with two visible lines, a batch of 5 new lines of which exactly
one passes the filter moves the cursor to index 2, the position of that one
newly visible line. -/
theorem C2_amended_witness :
    (updateNewLines exModelC2 [exLineFalse 3, exLineFalse 4, exLineFalse 5, exLineFalse 6, exLineTrue 7] none).cursor = 2 ∧
    (getVisibleLines (updateNewLines exModelC2 [exLineFalse 3, exLineFalse 4, exLineFalse 5, exLineFalse 6, exLineTrue 7] none)).getLast? = some (exLineTrue 7) := by
  constructor
  · have h := (C2_amended_tail_jump exModelC2
      [exLineFalse 3, exLineFalse 4, exLineFalse 5, exLineFalse 6, exLineTrue 7] none rfl
      (by simp)).1 (by decide)
    rw [h]
    rfl
  · rfl

/-- C3 fails as stated: a poll of a deleted file produces no message at
all, so the model is unchanged by the subsequent tick: the store is not
marked fully loaded and the tick handler schedules the next poll, so the
tail monitor keeps reporting. -/
theorem C3_counterexample :
    checkForNewLinesRun (fun _ => none) none 0 0 = none ∧
    (updateTick exModelBase).1.isFileFullyLoaded = false ∧
    (updateTick exModelBase).2 = [Cmd.checkNewLines 0 0, Cmd.tick] := by
  refine ⟨rfl, rfl, rfl⟩

/-- C3 amended: a failed poll is silently dropped: it produces no message
(hence no state change and no surfaced error), the tick handler always
leaves the model unchanged and schedules both the next poll and the next
tick, so polling continues; only the lazy-load completion path marks the
store fully loaded on error (and clears the loading flag). -/
theorem C3_amended_poll_failure_silent (p : String → Option GoValue)
    (currentSize lastLineNum : Int) (m : Model) :
    checkForNewLinesRun p none currentSize lastLineNum = none ∧
    updateTick m = (m, [Cmd.checkNewLines m.fileSize m.lastLineNum, Cmd.tick]) ∧
    (updateLoadMoreDone m true).isFileFullyLoaded = true ∧
    (updateLoadMoreDone m true).loadingMoreLines = false := by
  refine ⟨rfl, rfl, rfl, rfl⟩

/-- C4 fails as stated: with the loading-in-progress flag set and the file
not fully loaded, the End key still issues a load-to-end request: the flag
is not checked on that path. -/
theorem C4_counterexample :
    exModelLoading.loadingMoreLines = true ∧
    (updateKeyNormal (fun _ => 0) exModelLoading Key.keyEnd).2 =
      [Cmd.spinnerTick, Cmd.loadToEnd] := by
  refine ⟨rfl, rfl⟩

/-- C4 amended: the loading-in-progress flag guards only the downward
navigation lazy-load trigger: while it is set, down and pgdn never issue
any command; but the End key and enabling tail-follow check only the
fully-loaded flag and issue a load-to-end request even while a loadMore
request is outstanding. -/
theorem C4_amended_flag_guards (prettyMaxScroll : Model → Int) (m : Model)
    (hflag : m.loadingMoreLines = true) :
    (updateKeyNormal prettyMaxScroll m Key.down).2 = [] ∧
    (updateKeyNormal prettyMaxScroll m Key.pgdn).2 = [] ∧
    (m.showPretty = false → m.isFileFullyLoaded = false →
      (updateKeyNormal prettyMaxScroll m Key.keyEnd).2 =
        [Cmd.spinnerTick, Cmd.loadToEnd]) ∧
    (m.showPretty = false → m.filterMode = false → m.filterManageMode = false →
      m.viewMode = false → m.tailMode = false → m.isFileFullyLoaded = false →
      (updateKeyNormal prettyMaxScroll m Key.keyT).2 =
        [Cmd.spinnerTick, Cmd.loadToEnd]) := by
  refine ⟨?_, ?_, ?_, ?_⟩
  · unfold updateKeyNormal
    dsimp only
    split
    · rfl
    · split
      · rfl
      · split
        · rw [if_neg (by simp [hflag])]
        · rfl
  · unfold updateKeyNormal
    dsimp only
    split
    · rfl
    · split
      · rfl
      · split
        · rw [if_neg (by simp [hflag])]
        · rfl
  · intro hsp hfull
    unfold updateKeyNormal
    dsimp only
    rw [if_pos (by simp [hsp]), if_pos (by simp [hfull])]
  · intro hsp hfm hfmm hvm htm hfull
    unfold updateKeyNormal
    dsimp only
    rw [if_pos (by simp [hsp, hfm, hfmm, hvm]),
      if_pos (by simp [htm]), if_pos (by simp [hfull])]

/-- Witness for the amended C4 at a concrete mid-load model: down issues
nothing, End issues the load-to-end batch. -/
theorem C4_amended_witness :
    (updateKeyNormal (fun _ => 0) exModelLoading Key.down).2 = [] ∧
    (updateKeyNormal (fun _ => 0) exModelLoading Key.keyEnd).2 =
      [Cmd.spinnerTick, Cmd.loadToEnd] := by
  have h := C4_amended_flag_guards (fun _ => 0) exModelLoading rfl
  exact ⟨h.1, h.2.2.1 rfl rfl⟩

/-- The digit accumulator of Nat.toDigitsCore never shrinks. -/
theorem toDigitsCore_length_le (b : Nat) (f : Nat) : ∀ (n : Nat) (ds : List Char),
    ds.length ≤ (Nat.toDigitsCore b f n ds).length := by
  induction f with
  | zero =>
    intro n ds
    exact Nat.le_refl _
  | succ f ih =>
    intro n ds
    unfold Nat.toDigitsCore
    dsimp only
    split
    · simp
    · exact Nat.le_trans (by simp) (ih _ _)

/-- Nat.toDigits always produces at least one digit. -/
theorem toDigits_ne_nil (b n : Nat) : Nat.toDigits b n ≠ [] := by
  unfold Nat.toDigits Nat.toDigitsCore
  dsimp only
  split
  · simp
  · intro h
    have hle := toDigitsCore_length_le b n (n / b) [Nat.digitChar (n % b)]
    rw [h] at hle
    simp at hle

/-- The decimal numeral of a natural number is never the empty string. -/
theorem natRepr_ne_empty (n : Nat) : Nat.repr n ≠ "" := by
  unfold Nat.repr
  intro h
  have hl : Nat.toDigits 10 n = [] := by
    have hx := List.asString_eq.mp h
    simpa using hx
  exact toDigits_ne_nil 10 n hl

/-- The decimal numeral of an integer (the %d output used by the display
coercion) is never the empty string. -/
theorem toString_int_ne_empty (n : Int) : toString n ≠ "" := by
  cases n with
  | ofNat m =>
    have he : toString (Int.ofNat m) = Nat.repr m := rfl
    rw [he]
    exact natRepr_ne_empty m
  | negSucc m =>
    have he : toString (Int.negSucc m) = "-" ++ toString (m + 1) := rfl
    rw [he]
    intro h
    have hlen := congrArg String.length h
    rw [String.length_append] at hlen
    have h1 : String.length "-" = 1 := rfl
    have h0 : String.length "" = 0 := rfl
    omega

/-- C8 fails as stated: a transform whose result is the empty string (a
string, to be used verbatim per the claim) is indistinguishable from the
failure sentinel, and the display falls back to the raw line instead. -/
theorem C8_counterexample :
    displayTextForLine (fun _ => none) (fun _ => "") (fun _ => "")
        exModelViewEmptyStr exLineRaw = "raw" ∧
      ("raw" : String) ≠ "" := by
  refine ⟨rfl, by decide⟩

/-- C8 amended: for a valid line with an active transform, the display is:
no result or an error result falls back to the raw line; a string result is
used verbatim unless it is the empty string, which falls back to the raw
line; null displays as null, booleans as true/false, integers as their
decimal numeral, floats as the %g formatter's output and composite values
as their JSON re-encoding (the latter two whenever the external formatter
output is non-empty, as it always is for Go's fmt and json.Marshal). -/
theorem C8_amended_display (marshal : GoValue → Option String) (fmtFloat : Rat → String)
    (fmtAny : GoValue → String) (m : Model) (line : LogLine)
    (q : GoValue → List RunResult) (hv : line.isValid = true)
    (hq : m.viewFilter = some q) :
    ((q line.jsonData).head? = none →
      displayTextForLine marshal fmtFloat fmtAny m line = line.rawLine) ∧
    ((q line.jsonData).head? = some RunResult.err →
      displayTextForLine marshal fmtFloat fmtAny m line = line.rawLine) ∧
    (∀ s, (q line.jsonData).head? = some (RunResult.val (GoValue.vStr s)) →
      displayTextForLine marshal fmtFloat fmtAny m line =
        if s = "" then line.rawLine else s) ∧
    ((q line.jsonData).head? = some (RunResult.val GoValue.vNull) →
      displayTextForLine marshal fmtFloat fmtAny m line = "null") ∧
    (∀ b, (q line.jsonData).head? = some (RunResult.val (GoValue.vBool b)) →
      displayTextForLine marshal fmtFloat fmtAny m line =
        if b then "true" else "false") ∧
    (∀ n : Int, (q line.jsonData).head? = some (RunResult.val (GoValue.vInt n)) →
      displayTextForLine marshal fmtFloat fmtAny m line = toString n) ∧
    (∀ x : Rat, fmtFloat x ≠ "" →
      (q line.jsonData).head? = some (RunResult.val (GoValue.vFloat x)) →
      displayTextForLine marshal fmtFloat fmtAny m line = fmtFloat x) ∧
    (∀ v s, isComposite v = true → marshal v = some s → s ≠ "" →
      (q line.jsonData).head? = some (RunResult.val v) →
      displayTextForLine marshal fmtFloat fmtAny m line = s) := by
  have hbase : ∀ out : String,
      applyViewTransform marshal fmtFloat fmtAny m line.jsonData = out →
      displayTextForLine marshal fmtFloat fmtAny m line =
        if out = "" then line.rawLine else out := by
    intro out hout
    unfold displayTextForLine
    rw [hq]
    simp only [Option.isSome_some, hv, Bool.and_self, if_true, hout]
    by_cases h0 : out = ""
    · rw [if_pos h0, if_neg (by simp [h0])]
    · rw [if_neg h0, if_pos (by simpa using h0)]
  have havt : ∀ r, (q line.jsonData).head? = r →
      applyViewTransform marshal fmtFloat fmtAny m line.jsonData =
        (match r with
         | none => ""
         | some RunResult.err => ""
         | some (RunResult.val v) =>
           match v with
           | GoValue.vStr s => s
           | GoValue.vNull => "null"
           | GoValue.vBool b => if b then "true" else "false"
           | GoValue.vInt n => toString n
           | GoValue.vFloat x => fmtFloat x
           | other =>
             match marshal other with
             | some s => s
             | none => fmtAny other) := by
    intro r hr
    unfold applyViewTransform
    rw [hq]
    dsimp only
    rw [hr]
  refine ⟨?_, ?_, ?_, ?_, ?_, ?_, ?_, ?_⟩
  · intro hh
    rw [hbase "" (havt _ hh), if_pos rfl]
  · intro hh
    rw [hbase "" (havt _ hh), if_pos rfl]
  · intro s hh
    exact hbase s (havt _ hh)
  · intro hh
    rw [hbase "null" (havt _ hh), if_neg (by decide)]
  · intro b hh
    cases b with
    | false =>
      rw [hbase "false" (by simpa using havt _ hh), if_neg (by decide)]
      rfl
    | true =>
      rw [hbase "true" (by simpa using havt _ hh), if_neg (by decide)]
      rfl
  · intro n hh
    rw [hbase (toString n) (havt _ hh), if_neg (toString_int_ne_empty n)]
  · intro x hx hh
    rw [hbase (fmtFloat x) (havt _ hh), if_neg hx]
  · intro v s hcomp hm hs hh
    have hafix : applyViewTransform marshal fmtFloat fmtAny m line.jsonData =
        (match marshal v with
         | some s1 => s1
         | none => fmtAny v) := by
      unfold applyViewTransform
      rw [hq]
      dsimp only
      rw [hh]
      cases v with
      | vNull => simp [isComposite] at hcomp
      | vBool b => simp [isComposite] at hcomp
      | vInt n => simp [isComposite] at hcomp
      | vFloat x => simp [isComposite] at hcomp
      | vStr s1 => simp [isComposite] at hcomp
      | vArr xs => rfl
      | vObj fields => rfl
      | vOther tag => rfl
    have hout : applyViewTransform marshal fmtFloat fmtAny m line.jsonData = s := by
      rw [hafix, hm]
    rw [hbase s hout, if_neg hs]

/-- Witness for the amended C8: a transform producing the non-empty string
hello displays it verbatim. -/
theorem C8_amended_witness :
    displayTextForLine (fun _ => none) (fun _ => "") (fun _ => "")
        exModelViewHello exLineRaw = "hello" := by
  have h := (C8_amended_display (fun _ => none) (fun _ => "") (fun _ => "")
    exModelViewHello exLineRaw (fun _ => [RunResult.val (GoValue.vStr "hello")])
    rfl rfl).2.2.1 "hello" rfl
  rw [h]
  rfl

end Sift
